import Mathlib

-- Verification development for the margin-momentum trading system.
-- The technical-indicator computation, the anomaly detector, the signal
-- filter and the backtest engine are embedded as executable Lean
-- definitions over exact rational arithmetic; price and margin cells that
-- can be NaN in the tabular data are modelled as Option values, and the
-- per-instrument exception paths of the detector are modelled with Except.

set_option maxRecDepth 4000

unseal Rat.add Rat.sub Rat.mul Rat.inv

-- ===================================================================
-- TechnicalIndicators.calculate_rsi
-- (margin_momentum_analyzer.py, lines 20 to 49)
-- prices.diff() gives one delta per consecutive pair; the seed averages
-- the first period deltas, later indices are smoothed with the Wilder
-- recurrence, and rs falls back to 0 whenever the average loss is 0.
-- ===================================================================

def deltasOf (prices : List ℚ) : List ℚ :=
  List.zipWith (fun a b => b - a) prices prices.tail

def wilderStep (period : ℕ) (ud : ℚ × ℚ) (delta : ℚ) : ℚ × ℚ :=
  let upval : ℚ := if delta > 0 then delta else 0
  let downval : ℚ := if delta > 0 then 0 else -delta
  ((ud.1 * ((period : ℚ) - 1) + upval) / (period : ℚ),
   (ud.2 * ((period : ℚ) - 1) + downval) / (period : ℚ))

def rsOf (upAvg downAvg : ℚ) : ℚ :=
  if downAvg ≠ 0 then upAvg / downAvg else 0

def rsiFromRs (rs : ℚ) : ℚ := 100 - 100 / (1 + rs)

def rsiTail (period : ℕ) : ℚ × ℚ → List ℚ → List ℚ
  | _, [] => []
  | ud, d :: ds =>
    let ud2 := wilderStep period ud d
    rsiFromRs (rsOf ud2.1 ud2.2) :: rsiTail period ud2 ds

def calculate_rsi (prices : List ℚ) (period : ℕ) : List ℚ :=
  let deltas := deltasOf prices
  let seed := deltas.take period
  let upSeed := (seed.filter (fun d => 0 ≤ d)).sum / (period : ℚ)
  let downSeed := -(seed.filter (fun d => d < 0)).sum / (period : ℚ)
  List.replicate (min period prices.length) (rsiFromRs (rsOf upSeed downSeed))
    ++ rsiTail period (upSeed, downSeed) (deltas.drop (period - 1))

-- ===================================================================
-- MarginMomentumAnalyzer._detect_margin_anomalies
-- (margin_momentum_analyzer.py, lines 129 to 235)
-- Tabular cells that can be NaN are Option values; a column lookup that
-- can fail is an outer Option; the per-instrument try/except is Except.
-- ===================================================================

instance {e a : Type} [DecidableEq e] [DecidableEq a] : DecidableEq (Except e a) := fun x y =>
  match x, y with
  | .error u, .error v =>
    if h : u = v then .isTrue (by rw [h]) else .isFalse (fun hc => h (by cases hc; rfl))
  | .ok u, .ok v =>
    if h : u = v then .isTrue (by rw [h]) else .isFalse (fun hc => h (by cases hc; rfl))
  | .error _, .ok _ => .isFalse (fun hc => Except.noConfusion hc)
  | .ok _, .error _ => .isFalse (fun hc => Except.noConfusion hc)

structure StockRow where
  stockId : String
  price : Option ℚ
  inMarginCols : Bool
  marginCell : Option ℚ
  prevMarginCell : Option (Option ℚ)
  shortCell : Option (Option ℚ)
  prevShortCell : Option (Option ℚ)
  rsiCell : Option ℚ
  ma20Cell : Option ℚ
deriving DecidableEq, Repr

structure SignalRec where
  stockId : String
  sigType : String
  grade : String
  price : ℚ
  marginBalInt : ℤ
  shortBalInt : ℤ
  expectedReturn : Option ℚ
  stopLoss : Option ℚ
  holdingDays : Option ℕ
deriving DecidableEq, Repr

-- Config constants used by the detector and the filter (config.py).

def MARGIN_INCREASE_THRESHOLD : ℚ := 10 / 100

def SHORT_INCREASE_THRESHOLD : ℚ := 10 / 100

def RSI_OVERSOLD : ℚ := 30

def RSI_OVERBOUGHT : ℚ := 70

def MIN_STOCK_PRICE : ℚ := 10

def MAX_STOCK_PRICE : ℚ := 500

def MAX_POSITION_SIZE : ℚ := 10 / 100

-- Derived per-instrument quantities, one definition per local of the
-- source loop body.

def margin_balance (r : StockRow) : Option ℚ := r.marginCell

def prev_margin (r : StockRow) : Option ℚ :=
  match r.prevMarginCell with
  | some c => c
  | none => margin_balance r

def short_balance (r : StockRow) : Option ℚ :=
  match r.shortCell with
  | some c => c
  | none => some 0

def prev_short (r : StockRow) : Option ℚ :=
  match r.prevShortCell with
  | some c => c
  | none => short_balance r

-- Percent change with the division-by-zero fallback of the source: the
-- comparison prev > 0 is False for NaN, so a missing or nonpositive
-- previous balance yields a change of exactly 0.
def pctChange (bal prev : Option ℚ) : Option ℚ :=
  match prev with
  | some v => if 0 < v then bal.map (fun b => (b - v) / v) else some 0
  | none => some 0

def margin_pct_change (r : StockRow) : Option ℚ :=
  pctChange (margin_balance r) (prev_margin r)

def short_pct_change (r : StockRow) : Option ℚ :=
  pctChange (short_balance r) (prev_short r)

def price_vs_ma20 (price : ℚ) (ma20 : Option ℚ) : ℚ :=
  match ma20 with
  | some m => if 0 < m then (price - m) / m else 0
  | none => 0

-- NaN-aware comparisons: any comparison with NaN is False in the source.

def optGt (a : Option ℚ) (t : ℚ) : Bool :=
  match a with
  | some x => decide (t < x)
  | none => false

def optLt (a : Option ℚ) (t : ℚ) : Bool :=
  match a with
  | some x => decide (x < t)
  | none => false

-- Python int() conversion: truncation toward zero, raising on NaN. This
-- is the exception path of the per-instrument try block.
def ratTrunc (x : ℚ) : ℤ := if 0 ≤ x then ⌊x⌋ else -⌊-x⌋

def pyInt (a : Option ℚ) : Except Unit ℤ :=
  match a with
  | some x => .ok (ratTrunc x)
  | none => .error ()

def detect_one (r : StockRow) : Except Unit (Option SignalRec) :=
  match r.price with
  | none => .ok none
  | some p =>
    if p = 0 then .ok none
    else if r.inMarginCols then
      let mpc := margin_pct_change r
      let spc := short_pct_change r
      let pvma := price_vs_ma20 p r.ma20Cell
      if optGt mpc MARGIN_INCREASE_THRESHOLD && optLt r.rsiCell RSI_OVERSOLD
          && decide (pvma < 0) then
        let grade : String :=
          if optGt mpc (15 / 100) && optLt r.rsiCell 25 && decide (pvma < -(5 / 100))
            then "S級" else "A級"
        match pyInt (margin_balance r), pyInt (short_balance r) with
        | .ok mb, .ok sb =>
          .ok (some { stockId := r.stockId, sigType := "BUY", grade := grade, price := p,
                      marginBalInt := mb, shortBalInt := sb,
                      expectedReturn := some (if grade = "S級" then 15 else 10),
                      stopLoss := some (-8), holdingDays := some 5 })
        | _, _ => .error ()
      else if optGt spc SHORT_INCREASE_THRESHOLD && optGt r.rsiCell RSI_OVERBOUGHT
          && decide (0 < pvma) then
        let grade : String :=
          if optGt spc (15 / 100) && optGt r.rsiCell 75 then "URGENT" else "HIGH"
        match pyInt (margin_balance r), pyInt (short_balance r) with
        | .ok mb, .ok sb =>
          .ok (some { stockId := r.stockId, sigType := "SELL", grade := grade, price := p,
                      marginBalInt := mb, shortBalInt := sb,
                      expectedReturn := none, stopLoss := none, holdingDays := none })
        | _, _ => .error ()
      else .ok none
    else .ok none

-- The per-stock loop: a failing instrument is logged and skipped, a
-- succeeding one contributes its signal in emission order.
def detect_margin_anomalies (rows : List StockRow) : List SignalRec :=
  rows.flatMap (fun r =>
    match detect_one r with
    | .ok (some s) => [s]
    | _ => [])

-- ===================================================================
-- BacktestEngine.run_backtest (backtest_engine.py, lines 68 to 253)
-- Dates are day numbers; the date axis of the price table is a list of
-- day numbers, its columns a list of instrument ids, and a cell that is
-- present is a rational price (an absent or NaN cell is simply missing).
-- ===================================================================

structure PriceData where
  index : List ℕ
  columns : List String
  cells : List ((ℕ × String) × ℚ)
deriving DecidableEq, Repr

def pcell (pd : PriceData) (d : ℕ) (sid : String) : Option ℚ :=
  (pd.cells.find? (fun c => c.1.1 == d && c.1.2 == sid)).map (fun c => c.2)

structure Holding where
  shares : ℕ
  entryPrice : ℚ
  entryDate : ℕ
  signalGrade : String
  expectedReturn : ℚ
  stopLoss : ℚ
  holdingDays : ℕ
deriving DecidableEq, Repr

structure Trade where
  stockId : String
  entryDate : ℕ
  exitDate : ℕ
  entryPrice : ℚ
  exitPrice : ℚ
  shares : ℕ
  signalType : String
  signalGrade : String
  expectedReturn : ℚ
  stopLoss : ℚ
  pnl : ℚ
  pnlPct : ℚ
  exitReason : String
  holdingDays : ℤ
deriving DecidableEq, Repr

structure BTState where
  capital : ℚ
  holdings : List (String × Holding)
  trades : List Trade
  equity : List (ℕ × Option ℚ)
deriving DecidableEq, Repr

def heldStocks (hs : List (String × Holding)) : List String := hs.map Prod.fst

-- One BUY signal of the entry loop (lines 119 to 154): skip held stocks,
-- size the position, truncate to whole shares, debit cash, open a Holding.
def entryStep (initialCapital : ℚ) (pd : PriceData) (d : ℕ)
    (acc : ℚ × List (String × Holding)) (sig : SignalRec) :
    ℚ × List (String × Holding) :=
  if (heldStocks acc.2).contains sig.stockId then acc
  else
    let position_size := min (initialCapital * MAX_POSITION_SIZE) (acc.1 * (1 / 10))
    let cp := if pd.columns.contains sig.stockId then pcell pd d sig.stockId else none
    match cp with
    | none => acc
    | some price =>
      if price = 0 then acc
      else
        let shares := ratTrunc (position_size / price)
        if 0 < shares then
          (acc.1 - (shares : ℚ) * price,
           acc.2 ++ [(sig.stockId,
             { shares := shares.toNat, entryPrice := price, entryDate := d,
               signalGrade := sig.grade,
               expectedReturn := sig.expectedReturn.getD 10,
               stopLoss := sig.stopLoss.getD (-8),
               holdingDays := sig.holdingDays.getD 5 })])
        else acc

def processEntries (initialCapital : ℚ) (pd : PriceData) (d : ℕ)
    (cap : ℚ) (hs : List (String × Holding)) (sigs : List SignalRec) :
    ℚ × List (String × Holding) :=
  sigs.foldl (entryStep initialCapital pd d) (cap, hs)

-- The fixed exit priority of lines 176 to 198: target, then stop-loss,
-- then time, then a same-day signal whose first record for the stock is a
-- SELL; target and stop-loss settle at theoretical prices.
def exitDecision (signals : List SignalRec) (h : Holding) (sid : String)
    (p : ℚ) (d : ℕ) : Option (String × ℚ) :=
  let pnl_pct := (p - h.entryPrice) / h.entryPrice
  let holding_days : ℤ := (d : ℤ) - (h.entryDate : ℤ)
  if h.expectedReturn / 100 ≤ pnl_pct then
    some ("target", h.entryPrice * (1 + h.expectedReturn / 100))
  else if pnl_pct ≤ h.stopLoss / 100 then
    some ("stop_loss", h.entryPrice * (1 + h.stopLoss / 100))
  else if (h.holdingDays : ℤ) ≤ holding_days then
    some ("time", p)
  else
    match signals.filter (fun s => s.stockId == sid) with
    | [] => none
    | s :: _ => if s.sigType == "SELL" then some ("signal", p) else none

def mkTrade (sid : String) (h : Holding) (d : ℕ) (reason : String) (xp : ℚ) : Trade :=
  { stockId := sid, entryDate := h.entryDate, exitDate := d,
    entryPrice := h.entryPrice, exitPrice := xp, shares := h.shares,
    signalType := "BUY", signalGrade := h.signalGrade,
    expectedReturn := h.expectedReturn, stopLoss := h.stopLoss,
    pnl := (h.shares : ℚ) * xp - h.entryPrice * (h.shares : ℚ),
    pnlPct := (xp - h.entryPrice) / h.entryPrice,
    exitReason := reason,
    holdingDays := (d : ℤ) - (h.entryDate : ℤ) }

-- One open holding of the exit loop (lines 157 to 229): holdings whose
-- stock has no column or no usable price stay open; an exit credits cash
-- and appends a Trade, and the holding is dropped from the map.
def exitStep (pd : PriceData) (d : ℕ) (signals : List SignalRec)
    (acc : ℚ × List Trade × List (String × Holding)) (sh : String × Holding) :
    ℚ × List Trade × List (String × Holding) :=
  if pd.columns.contains sh.1 then
    match pcell pd d sh.1 with
    | none => (acc.1, acc.2.1, acc.2.2 ++ [sh])
    | some p =>
      if p = 0 then (acc.1, acc.2.1, acc.2.2 ++ [sh])
      else
        match exitDecision signals sh.2 sh.1 p d with
        | none => (acc.1, acc.2.1, acc.2.2 ++ [sh])
        | some rx =>
          (acc.1 + (sh.2.shares : ℚ) * rx.2,
           acc.2.1 ++ [mkTrade sh.1 sh.2 d rx.1 rx.2],
           acc.2.2)
  else (acc.1, acc.2.1, acc.2.2 ++ [sh])

def processExits (pd : PriceData) (d : ℕ) (signals : List SignalRec)
    (cap : ℚ) (hs : List (String × Holding)) :
    ℚ × List Trade × List (String × Holding) :=
  hs.foldl (exitStep pd d signals) (cap, [], [])

-- Valuation of lines 232 to 237: the generator skips holdings whose stock
-- is not a column, while a NaN price cell poisons the whole sum.
def hvStep (pd : PriceData) (d : ℕ) (acc : Option ℚ) (sh : String × Holding) : Option ℚ :=
  if pd.columns.contains sh.1 then
    match acc, pcell pd d sh.1 with
    | some a, some p => some (a + p * (sh.2.shares : ℚ))
    | _, _ => none
  else acc

def holdingValue (pd : PriceData) (d : ℕ) (hs : List (String × Holding)) : Option ℚ :=
  hs.foldl (hvStep pd d) (some 0)

-- One calendar day of the loop (lines 103 to 237). A day absent from the
-- price index is skipped entirely; a day whose signal set is empty only
-- records the cash balance as the equity point and performs no trading.
def dayStep (initialCapital : ℚ) (pd : PriceData) (strategy : ℕ → List SignalRec)
    (st : BTState) (d : ℕ) : BTState :=
  if pd.index.contains d then
    match strategy d with
    | [] => { st with equity := st.equity ++ [(d, some st.capital)] }
    | s :: rest =>
      let signals := s :: rest
      let ent := processEntries initialCapital pd d st.capital st.holdings
        (signals.filter (fun sg => sg.sigType == "BUY"))
      let ex := processExits pd d signals ent.1 ent.2
      { capital := ex.1,
        holdings := ex.2.2,
        trades := st.trades ++ ex.2.1,
        equity := st.equity ++
          [(d, (holdingValue pd d ex.2.2).map (fun v => ex.1 + v))] }
  else st

def dateRange (dStart dEnd : ℕ) : List ℕ := List.range' dStart (dEnd + 1 - dStart)

def initState (initialCapital : ℚ) : BTState :=
  { capital := initialCapital, holdings := [], trades := [], equity := [] }

def run_backtest (initialCapital : ℚ) (pd : PriceData)
    (strategy : ℕ → List SignalRec) (dStart dEnd : ℕ) : BTState :=
  (dateRange dStart dEnd).foldl (dayStep initialCapital pd strategy)
    (initState initialCapital)

def runTrace (initialCapital : ℚ) (pd : PriceData)
    (strategy : ℕ → List SignalRec) (dStart dEnd : ℕ) : List BTState :=
  (dateRange dStart dEnd).scanl (dayStep initialCapital pd strategy)
    (initState initialCapital)

-- BacktestEngine._calculate_metrics, final capital only (lines 262 to
-- 281): the last equity value, or the initial capital for an empty curve.
def final_capital (initialCapital : ℚ) (st : BTState) : Option ℚ :=
  match st.equity.getLast? with
  | some dv => dv.2
  | none => some initialCapital

def tradesPnl (ts : List Trade) : ℚ := (ts.map (fun t => t.pnl)).sum

def holdingsCost (hs : List (String × Holding)) : ℚ :=
  (hs.map (fun sh => sh.2.entryPrice * (sh.2.shares : ℚ))).sum

-- Quantity named by claim C1: the mark-to-market value of the open
-- holdings at a date, at the price recorded for that date.
def mtmValue (pd : PriceData) (d : ℕ) (hs : List (String × Holding)) : ℚ :=
  (hs.map (fun sh => (pcell pd d sh.1).getD 0 * (sh.2.shares : ℚ))).sum

-- Amended quantity for claim C1: unrealized profit of the open holdings.
def unrealizedPnl (pd : PriceData) (d : ℕ) (hs : List (String × Holding)) : ℚ :=
  (hs.map (fun sh =>
    ((pcell pd d sh.1).getD 0 - sh.2.entryPrice) * (sh.2.shares : ℚ))).sum

-- ===================================================================
-- Concrete inputs used by witnesses and counterexamples.
-- ===================================================================

def buySigA : SignalRec :=
  { stockId := "X", sigType := "BUY", grade := "A級", price := 10,
    marginBalInt := 0, shortBalInt := 0, expectedReturn := some 10,
    stopLoss := some (-8), holdingDays := some 5 }

def pdOneDay : PriceData :=
  { index := [0], columns := ["X"], cells := [((0, "X"), 10)] }

def stratDay0Buy : ℕ → List SignalRec :=
  fun d => if d = 0 then [buySigA] else []

def pdDaysZeroSix : PriceData :=
  { index := [0, 6], columns := ["X"],
    cells := [((0, "X"), 10), ((6, "X"), 10)] }

def stratNone : ℕ → List SignalRec := fun _ => []

def badSig : SignalRec :=
  { stockId := "X", sigType := "BUY", grade := "A級", price := 1,
    marginBalInt := 0, shortBalInt := 0, expectedReturn := some (-10000),
    stopLoss := some (-8), holdingDays := some 5 }

def pdPenny : PriceData :=
  { index := [0], columns := ["X"], cells := [((0, "X"), 1)] }

def stratDay0Bad : ℕ → List SignalRec :=
  fun d => if d = 0 then [badSig] else []

def rowBuyS : StockRow :=
  { stockId := "W", price := some 46, inMarginCols := true,
    marginCell := some 120, prevMarginCell := some (some 100),
    shortCell := some (some 50), prevShortCell := some (some 50),
    rsiCell := some 22, ma20Cell := some 50 }

def rowSellHigh : StockRow :=
  { stockId := "Y", price := some 20, inMarginCols := true,
    marginCell := some 100, prevMarginCell := some (some 100),
    shortCell := some (some 28), prevShortCell := some (some 25),
    rsiCell := some 72, ma20Cell := some 19 }

-- A margin cell that is NaN while the short spike fires the SELL branch:
-- building the record then applies int() to the NaN margin balance, which
-- raises inside the per-instrument try block.
def rowBad : StockRow :=
  { stockId := "Z", price := some 20, inMarginCols := true,
    marginCell := none, prevMarginCell := some (some 5),
    shortCell := some (some 10), prevShortCell := some (some 8),
    rsiCell := some 80, ma20Cell := some 10 }

def rowQuiet : StockRow :=
  { stockId := "Q", price := some 30, inMarginCols := true,
    marginCell := some 10, prevMarginCell := some (some 10),
    shortCell := some (some 4), prevShortCell := some (some 4),
    rsiCell := some 50, ma20Cell := some 30 }

def demoHolding : Holding :=
  { shares := 1, entryPrice := 10, entryDate := 0, signalGrade := "A級",
    expectedReturn := 10, stopLoss := -8, holdingDays := 5 }

-- ===================================================================
-- Claim C2 and C8 helper lemmas
-- ===================================================================

lemma list_sum_nonpos {l : List ℚ} (h : ∀ x ∈ l, x ≤ 0) : l.sum ≤ 0 := by
  induction l with
  | nil => simp
  | cons a t ih =>
    have ha := h a (by simp)
    have ht := ih (fun x hx => h x (by simp [hx]))
    simp only [List.sum_cons]
    linarith

lemma rsiFromRs_bounds {rs : ℚ} (h : 0 ≤ rs) :
    0 ≤ rsiFromRs rs ∧ rsiFromRs rs ≤ 100 := by
  unfold rsiFromRs
  have h1 : (0 : ℚ) < 1 + rs := by linarith
  constructor
  · have h2 : 100 / (1 + rs) ≤ 100 := by
      rw [div_le_iff₀ h1]; nlinarith
    linarith
  · have h3 : 0 ≤ 100 / (1 + rs) := by positivity
    linarith

lemma rsOf_nonneg {u d : ℚ} (hu : 0 ≤ u) (hd : 0 ≤ d) : 0 ≤ rsOf u d := by
  unfold rsOf
  split
  · rename_i hne
    exact div_nonneg hu hd
  · exact le_refl 0

lemma wilderStep_nonneg {period : ℕ} (hper : 0 < period) {ud : ℚ × ℚ}
    (h1 : 0 ≤ ud.1) (h2 : 0 ≤ ud.2) (delta : ℚ) :
    0 ≤ (wilderStep period ud delta).1 ∧ 0 ≤ (wilderStep period ud delta).2 := by
  have hp1 : (1 : ℚ) ≤ (period : ℚ) := by exact_mod_cast hper
  have hp0 : (0 : ℚ) ≤ (period : ℚ) := by linarith
  unfold wilderStep
  constructor
  · apply div_nonneg _ hp0
    have : (0 : ℚ) ≤ if delta > 0 then delta else 0 := by
      split <;> [linarith; exact le_refl 0]
    nlinarith
  · apply div_nonneg _ hp0
    have : (0 : ℚ) ≤ if delta > 0 then 0 else -delta := by
      split
      · exact le_refl 0
      · rename_i hd
        push_neg at hd
        linarith
    nlinarith

lemma rsiTail_mem_bounds {period : ℕ} (hper : 0 < period) :
    ∀ (ds : List ℚ) (ud : ℚ × ℚ), 0 ≤ ud.1 → 0 ≤ ud.2 →
      ∀ x ∈ rsiTail period ud ds, 0 ≤ x ∧ x ≤ 100 := by
  intro ds
  induction ds with
  | nil => intro ud _ _ x hx; simp [rsiTail] at hx
  | cons d dt ih =>
    intro ud h1 h2 x hx
    simp only [rsiTail, List.mem_cons] at hx
    obtain ⟨hw1, hw2⟩ := wilderStep_nonneg hper h1 h2 d
    rcases hx with hx | hx
    · subst hx
      exact rsiFromRs_bounds (rsOf_nonneg hw1 hw2)
    · exact ih _ hw1 hw2 x hx

lemma seed_up_nonneg (seed : List ℚ) (period : ℕ) :
    0 ≤ (seed.filter (fun d => 0 ≤ d)).sum / (period : ℚ) := by
  apply div_nonneg _ (by positivity)
  apply List.sum_nonneg
  intro x hx
  have := (List.mem_filter.mp hx).2
  simpa using this

lemma seed_down_nonneg (seed : List ℚ) (period : ℕ) :
    0 ≤ -(seed.filter (fun d => d < 0)).sum / (period : ℚ) := by
  apply div_nonneg _ (by positivity)
  have h : (seed.filter (fun d => d < 0)).sum ≤ 0 := by
    apply list_sum_nonpos
    intro x hx
    have := (List.mem_filter.mp hx).2
    have hlt : x < 0 := by simpa using this
    linarith
  linarith

/-- Claim C8: for every price series with at least period+1 points (and a
positive period), every value returned by calculate_rsi lies in the closed
interval from 0 to 100. -/
theorem rsi_within_zero_hundred (prices : List ℚ) (period : ℕ)
    (hper : 0 < period) (hlen : period + 1 ≤ prices.length) :
    ∀ x ∈ calculate_rsi prices period, 0 ≤ x ∧ x ≤ 100 := by
  intro x hx
  unfold calculate_rsi at hx
  rw [List.mem_append] at hx
  have hup := seed_up_nonneg ((deltasOf prices).take period) period
  have hdown := seed_down_nonneg ((deltasOf prices).take period) period
  rcases hx with hx | hx
  · have := List.eq_of_mem_replicate hx
    subst this
    exact rsiFromRs_bounds (rsOf_nonneg hup hdown)
  · exact rsiTail_mem_bounds hper _ _ hup hdown x hx

/-- Witness for claim C8 at a concrete 15-point price series with period 14. -/
theorem rsi_within_zero_hundred_witness :
    0 ≤ (calculate_rsi [3, 1, 4, 1, 5, 9, 2, 6, 5, 3, 5, 8, 9, 7, 9] 14).getD 7 500 ∧
      (calculate_rsi [3, 1, 4, 1, 5, 9, 2, 6, 5, 3, 5, 8, 9, 7, 9] 14).getD 7 500 ≤ 100 := by
  have h := rsi_within_zero_hundred [3, 1, 4, 1, 5, 9, 2, 6, 5, 3, 5, 8, 9, 7, 9] 14
    (by decide) (by decide)
    ((calculate_rsi [3, 1, 4, 1, 5, 9, 2, 6, 5, 3, 5, 8, 9, 7, 9] 14).getD 7 500)
    (by decide)
  exact h

/-- Claim C2 (code evaluation at the failing input): on the strictly
increasing 16-point series 1,2,...,16 with period 14 every delta is
positive, so the smoothed average loss is 0 at every index; the code then
takes the rs equal 0 fallback and returns RSI 0 everywhere, where the
specification requires 100. -/
theorem rsi_all_gains_returns_zero :
    calculate_rsi [1, 2, 3, 4, 5, 6, 7, 8, 9, 10, 11, 12, 13, 14, 15, 16] 14
      = List.replicate 16 0 := by
  decide

-- ===================================================================
-- Claim C9: per-instrument failures are skipped.
-- ===================================================================

/-- Claim C9: if processing one instrument raises (modelled as detect_one
returning an error), the detector skips that instrument and still returns
the signals of every other instrument, in order; the failure never
propagates out of detect_margin_anomalies. -/
theorem detector_skips_failing_instrument (xs ys : List StockRow) (bad : StockRow)
    (hbad : detect_one bad = .error ()) :
    detect_margin_anomalies (xs ++ bad :: ys)
      = detect_margin_anomalies xs ++ detect_margin_anomalies ys := by
  simp only [detect_margin_anomalies, List.flatMap_append, List.flatMap_cons, hbad,
    List.nil_append, List.append_assoc]

/-- Witness for claim C9: the NaN margin cell of rowBad raises inside the
SELL record construction, and the batch still returns the signals of the
healthy neighbours. -/
theorem detector_skips_failing_instrument_witness :
    detect_margin_anomalies [rowBuyS, rowBad, rowQuiet]
      = detect_margin_anomalies [rowBuyS] ++ detect_margin_anomalies [rowQuiet] :=
  detector_skips_failing_instrument [rowBuyS] [rowQuiet] rowBad (by decide)

-- ===================================================================
-- Claims C5 and C6: the BUY and SELL rules of the detector.
-- ===================================================================

lemma detect_one_shape (r : StockRow) (p b s rv mc sc : ℚ)
    (hp : r.price = some p) (hp0 : p ≠ 0) (hcols : r.inMarginCols = true)
    (hb : margin_balance r = some b) (hs : short_balance r = some s)
    (hr : r.rsiCell = some rv) (hmc : margin_pct_change r = some mc)
    (hsc : short_pct_change r = some sc) :
    detect_one r =
      if MARGIN_INCREASE_THRESHOLD < mc ∧ rv < RSI_OVERSOLD
          ∧ price_vs_ma20 p r.ma20Cell < 0 then
        .ok (some { stockId := r.stockId, sigType := "BUY",
                    grade := if 15 / 100 < mc ∧ rv < 25
                        ∧ price_vs_ma20 p r.ma20Cell < -(5 / 100)
                      then "S級" else "A級",
                    price := p, marginBalInt := ratTrunc b,
                    shortBalInt := ratTrunc s,
                    expectedReturn := some (if 15 / 100 < mc ∧ rv < 25
                        ∧ price_vs_ma20 p r.ma20Cell < -(5 / 100)
                      then 15 else 10),
                    stopLoss := some (-8), holdingDays := some 5 })
      else if SHORT_INCREASE_THRESHOLD < sc ∧ RSI_OVERBOUGHT < rv
          ∧ 0 < price_vs_ma20 p r.ma20Cell then
        .ok (some { stockId := r.stockId, sigType := "SELL",
                    grade := if 15 / 100 < sc ∧ 75 < rv then "URGENT" else "HIGH",
                    price := p, marginBalInt := ratTrunc b,
                    shortBalInt := ratTrunc s,
                    expectedReturn := none, stopLoss := none,
                    holdingDays := none })
      else .ok none := by
  simp only [detect_one, hp, hcols, hmc, hsc, hr, hb, hs, optGt, optLt, pyInt, ratTrunc,
    if_neg hp0, if_true, Bool.and_eq_true, decide_eq_true_eq, and_assoc]
  by_cases hS : 15 / 100 < mc ∧ rv < 25 ∧ price_vs_ma20 p r.ma20Cell < -(5 / 100)
  · simp [hS]
  · simp [hS]

/-- Claim C5: for an instrument with a valid nonzero price, valid RSI,
margin and short balances, the detector emits a BUY signal exactly when
the margin percent change exceeds MARGIN_INCREASE_THRESHOLD, RSI is below
RSI_OVERSOLD and the price sits below MA20; the grade is S exactly when
additionally the margin change exceeds 0.15, RSI is below 25 and the
price sits more than 5 percent below MA20, otherwise A; the expected
return is 15 for S and 10 for A, the stop loss is -8 and the holding-day
target is 5. -/
theorem detector_buy_rule (r : StockRow) (p b s rv mc sc : ℚ)
    (hp : r.price = some p) (hp0 : p ≠ 0) (hcols : r.inMarginCols = true)
    (hb : margin_balance r = some b) (hs : short_balance r = some s)
    (hr : r.rsiCell = some rv) (hmc : margin_pct_change r = some mc)
    (hsc : short_pct_change r = some sc) :
    ((∃ sig, detect_one r = .ok (some sig) ∧ sig.sigType = "BUY") ↔
      (MARGIN_INCREASE_THRESHOLD < mc ∧ rv < RSI_OVERSOLD
        ∧ price_vs_ma20 p r.ma20Cell < 0))
    ∧ ∀ sig, detect_one r = .ok (some sig) → sig.sigType = "BUY" →
        ((sig.grade = "S級" ↔ (15 / 100 < mc ∧ rv < 25
            ∧ price_vs_ma20 p r.ma20Cell < -(5 / 100)))
          ∧ (sig.grade = "S級" ∨ sig.grade = "A級")
          ∧ sig.expectedReturn = some (if sig.grade = "S級" then (15 : ℚ) else 10)
          ∧ sig.stopLoss = some (-8)
          ∧ sig.holdingDays = some 5
          ∧ sig.stockId = r.stockId
          ∧ sig.price = p) := by
  have hshape := detect_one_shape r p b s rv mc sc hp hp0 hcols hb hs hr hmc hsc
  rw [hshape]
  constructor
  · constructor
    · rintro ⟨sig, hsig, hty⟩
      by_cases hbuy : MARGIN_INCREASE_THRESHOLD < mc ∧ rv < RSI_OVERSOLD
          ∧ price_vs_ma20 p r.ma20Cell < 0
      · exact hbuy
      · rw [if_neg hbuy] at hsig
        by_cases hsell : SHORT_INCREASE_THRESHOLD < sc ∧ RSI_OVERBOUGHT < rv
            ∧ 0 < price_vs_ma20 p r.ma20Cell
        · rw [if_pos hsell] at hsig
          simp only [Except.ok.injEq, Option.some.injEq] at hsig
          rw [← hsig] at hty
          simp at hty
        · rw [if_neg hsell] at hsig
          exact Option.noConfusion (Except.ok.inj hsig)
    · intro hbuy
      rw [if_pos hbuy]
      exact ⟨_, rfl, rfl⟩
  · intro sig hsig hty
    by_cases hbuy : MARGIN_INCREASE_THRESHOLD < mc ∧ rv < RSI_OVERSOLD
        ∧ price_vs_ma20 p r.ma20Cell < 0
    · rw [if_pos hbuy] at hsig
      simp only [Except.ok.injEq, Option.some.injEq] at hsig
      subst hsig
      by_cases hS : 15 / 100 < mc ∧ rv < 25 ∧ price_vs_ma20 p r.ma20Cell < -(5 / 100)
      · simp [hS]
      · simp [hS]
    · rw [if_neg hbuy] at hsig
      by_cases hsell : SHORT_INCREASE_THRESHOLD < sc ∧ RSI_OVERBOUGHT < rv
          ∧ 0 < price_vs_ma20 p r.ma20Cell
      · rw [if_pos hsell] at hsig
        simp only [Except.ok.injEq, Option.some.injEq] at hsig
        rw [← hsig] at hty
        simp at hty
      · rw [if_neg hsell] at hsig
        exact Option.noConfusion (Except.ok.inj hsig)

/-- Witness for claim C5 at the concrete instrument of the specification
fixture: margin change 0.20, RSI 22, price 8 percent below MA20, which
fires a BUY of grade S with expected return 15, stop loss -8 and 5
holding days. -/
theorem detector_buy_rule_witness :
    (∃ sig, detect_one rowBuyS = .ok (some sig) ∧ sig.sigType = "BUY")
    ∧ ∀ sig, detect_one rowBuyS = .ok (some sig) → sig.sigType = "BUY" →
        sig.grade = "S級" ∧ sig.expectedReturn = some 15 := by
  have h := detector_buy_rule rowBuyS 46 120 50 22 (1 / 5) 0 rfl (by decide) rfl rfl rfl
    rfl (by decide) (by decide)
  refine ⟨h.1.mpr ⟨by decide, by decide, by decide⟩, ?_⟩
  intro sig h1 h2
  have hg := (h.2 sig h1 h2).1.mpr ⟨by decide, by decide, by decide⟩
  refine ⟨hg, ?_⟩
  have he := (h.2 sig h1 h2).2.2.1
  rw [hg] at he
  simpa using he

/-- Claim C6: with the same validity assumptions, the SELL rule is
evaluated only when the BUY rule did not fire, fires exactly when the
short percent change exceeds SHORT_INCREASE_THRESHOLD, RSI is above
RSI_OVERBOUGHT and the price sits above MA20, and grades the signal
URGENT exactly when the short change exceeds 0.15 and RSI exceeds 75,
otherwise HIGH. -/
theorem detector_sell_rule (r : StockRow) (p b s rv mc sc : ℚ)
    (hp : r.price = some p) (hp0 : p ≠ 0) (hcols : r.inMarginCols = true)
    (hb : margin_balance r = some b) (hs : short_balance r = some s)
    (hr : r.rsiCell = some rv) (hmc : margin_pct_change r = some mc)
    (hsc : short_pct_change r = some sc) :
    ((∃ sig, detect_one r = .ok (some sig) ∧ sig.sigType = "SELL") ↔
      (¬(MARGIN_INCREASE_THRESHOLD < mc ∧ rv < RSI_OVERSOLD
          ∧ price_vs_ma20 p r.ma20Cell < 0)
        ∧ SHORT_INCREASE_THRESHOLD < sc ∧ RSI_OVERBOUGHT < rv
        ∧ 0 < price_vs_ma20 p r.ma20Cell))
    ∧ ∀ sig, detect_one r = .ok (some sig) → sig.sigType = "SELL" →
        ((sig.grade = "URGENT" ↔ (15 / 100 < sc ∧ 75 < rv))
          ∧ (sig.grade = "URGENT" ∨ sig.grade = "HIGH")) := by
  have hshape := detect_one_shape r p b s rv mc sc hp hp0 hcols hb hs hr hmc hsc
  rw [hshape]
  constructor
  · constructor
    · rintro ⟨sig, hsig, hty⟩
      by_cases hbuy : MARGIN_INCREASE_THRESHOLD < mc ∧ rv < RSI_OVERSOLD
          ∧ price_vs_ma20 p r.ma20Cell < 0
      · rw [if_pos hbuy] at hsig
        simp only [Except.ok.injEq, Option.some.injEq] at hsig
        rw [← hsig] at hty
        simp at hty
      · rw [if_neg hbuy] at hsig
        by_cases hsell : SHORT_INCREASE_THRESHOLD < sc ∧ RSI_OVERBOUGHT < rv
            ∧ 0 < price_vs_ma20 p r.ma20Cell
        · exact ⟨hbuy, hsell⟩
        · rw [if_neg hsell] at hsig
          exact Option.noConfusion (Except.ok.inj hsig)
    · rintro ⟨h1, h2⟩
      rw [if_neg h1, if_pos h2]
      exact ⟨_, rfl, rfl⟩
  · intro sig hsig hty
    by_cases hbuy : MARGIN_INCREASE_THRESHOLD < mc ∧ rv < RSI_OVERSOLD
        ∧ price_vs_ma20 p r.ma20Cell < 0
    · rw [if_pos hbuy] at hsig
      simp only [Except.ok.injEq, Option.some.injEq] at hsig
      rw [← hsig] at hty
      simp at hty
    · rw [if_neg hbuy] at hsig
      by_cases hsell : SHORT_INCREASE_THRESHOLD < sc ∧ RSI_OVERBOUGHT < rv
          ∧ 0 < price_vs_ma20 p r.ma20Cell
      · rw [if_pos hsell] at hsig
        simp only [Except.ok.injEq, Option.some.injEq] at hsig
        subst hsig
        by_cases hU : 15 / 100 < sc ∧ 75 < rv
        · simp [hU]
        · simp [hU]
      · rw [if_neg hsell] at hsig
        exact Option.noConfusion (Except.ok.inj hsig)

/-- Witness for claim C6 at the concrete instrument of the specification
fixture: short change 0.12, RSI 72, price above MA20, which fires a SELL
graded HIGH and not URGENT. -/
theorem detector_sell_rule_witness :
    (∃ sig, detect_one rowSellHigh = .ok (some sig) ∧ sig.sigType = "SELL")
    ∧ ∀ sig, detect_one rowSellHigh = .ok (some sig) → sig.sigType = "SELL" →
        sig.grade = "HIGH" := by
  have h := detector_sell_rule rowSellHigh 20 100 28 72 0 (3 / 25) rfl (by decide) rfl rfl
    rfl rfl (by decide) (by decide)
  refine ⟨h.1.mpr ⟨by decide, by decide, by decide, by decide⟩, ?_⟩
  intro sig h1 h2
  have hg := h.2 sig h1 h2
  rcases hg.2 with hu | hh
  · exact absurd (hg.1.mp hu) (by decide)
  · exact hh

-- ===================================================================
-- Claim C3: exit evaluation order.
-- ===================================================================

/-- Counterexample to claim C3 as stated: on day 6 the price table has
data and the open holding satisfies the time-exit condition (6 elapsed
days, target 5, live price available), yet the run records no trade and
the holding stays open, because the signal set of day 6 is empty and the
engine skips all exit evaluation on empty-signal days. -/
theorem exit_evaluated_every_data_day_cex :
    pdDaysZeroSix.index.contains 6 = true
    ∧ pcell pdDaysZeroSix 6 "X" = some 10
    ∧ (run_backtest 100 pdDaysZeroSix stratDay0Buy 0 6).holdings.all
        (fun sh => (exitDecision (stratDay0Buy 6) sh.2 sh.1 10 6).isSome) = true
    ∧ (run_backtest 100 pdDaysZeroSix stratDay0Buy 0 6).holdings ≠ []
    ∧ (run_backtest 100 pdDaysZeroSix stratDay0Buy 0 6).trades = [] := by
  decide

/-- Claim C3 as amended: on a date with price data and a non-empty signal
set, each open holding with an available nonzero price is decided in the
fixed priority order target, stop-loss, time, same-day signal (the first
record filtered for the instrument, if it is a SELL); only the first
matching condition fires, and target and stop-loss settle at the
theoretical prices derived from the entry price, not the live price. On a
date whose signal set is empty the engine performs no exit evaluation at
all and the holdings pass through unchanged. -/
theorem exit_priority_fixed_order :
    (∀ (signals : List SignalRec) (h : Holding) (sid : String) (p : ℚ) (d : ℕ),
      (h.expectedReturn / 100 ≤ (p - h.entryPrice) / h.entryPrice →
        exitDecision signals h sid p d
          = some ("target", h.entryPrice * (1 + h.expectedReturn / 100)))
      ∧ ((p - h.entryPrice) / h.entryPrice < h.expectedReturn / 100 →
          (p - h.entryPrice) / h.entryPrice ≤ h.stopLoss / 100 →
          exitDecision signals h sid p d
            = some ("stop_loss", h.entryPrice * (1 + h.stopLoss / 100)))
      ∧ ((p - h.entryPrice) / h.entryPrice < h.expectedReturn / 100 →
          h.stopLoss / 100 < (p - h.entryPrice) / h.entryPrice →
          (h.holdingDays : ℤ) ≤ (d : ℤ) - (h.entryDate : ℤ) →
          exitDecision signals h sid p d = some ("time", p))
      ∧ ((p - h.entryPrice) / h.entryPrice < h.expectedReturn / 100 →
          h.stopLoss / 100 < (p - h.entryPrice) / h.entryPrice →
          (d : ℤ) - (h.entryDate : ℤ) < (h.holdingDays : ℤ) →
          ((exitDecision signals h sid p d = some ("signal", p) ↔
              ∃ sg rest, signals.filter (fun x => x.stockId == sid) = sg :: rest
                ∧ sg.sigType = "SELL")
            ∧ (exitDecision signals h sid p d = some ("signal", p)
                ∨ exitDecision signals h sid p d = none))))
    ∧ (∀ (initialCapital : ℚ) (pd : PriceData) (strategy : ℕ → List SignalRec)
        (st : BTState) (d : ℕ), strategy d = [] →
        (dayStep initialCapital pd strategy st d).trades = st.trades
        ∧ (dayStep initialCapital pd strategy st d).holdings = st.holdings) := by
  constructor
  · intro signals h sid p d
    refine ⟨?_, ?_, ?_, ?_⟩
    · intro h1
      rw [exitDecision, if_pos h1]
    · intro h1 h2
      rw [exitDecision, if_neg (not_le.mpr h1), if_pos h2]
    · intro h1 h2 h3
      rw [exitDecision, if_neg (not_le.mpr h1), if_neg (not_le.mpr h2), if_pos h3]
    · intro h1 h2 h3
      rw [exitDecision, if_neg (not_le.mpr h1), if_neg (not_le.mpr h2),
        if_neg (not_le.mpr h3)]
      rcases hfs : signals.filter (fun x => x.stockId == sid) with _ | ⟨sg, rest⟩
      · simp only [hfs]
        refine ⟨⟨fun hx => Option.noConfusion hx, ?_⟩, Or.inr trivial⟩
        rintro ⟨sg, rest, hfs2, _⟩
        exact List.noConfusion hfs2
      · simp only [hfs]
        by_cases hty : sg.sigType = "SELL"
        · rw [if_pos (by simpa using hty)]
          exact ⟨⟨fun _ => ⟨sg, rest, rfl, hty⟩, fun _ => rfl⟩, Or.inl rfl⟩
        · rw [if_neg (by simpa using hty)]
          refine ⟨⟨fun hx => Option.noConfusion hx, ?_⟩, Or.inr rfl⟩
          rintro ⟨sg2, rest2, hfs2, hty2⟩
          injection hfs2 with h4 h5
          exact absurd (by rw [h4]; exact hty2) hty
  · intro initialCapital pd strategy st d hempty
    unfold dayStep
    by_cases hidx : pd.index.contains d
    · rw [if_pos hidx, hempty]
      exact ⟨rfl, rfl⟩
    · rw [if_neg hidx]
      exact ⟨rfl, rfl⟩

/-- Witness for claim C3 as amended: the demo holding at live price 12 on
day 3 takes the target exit at the theoretical price 11 even though live
price, time and the (empty) signal list would allow nothing else, and an
empty-signal day leaves the trade log untouched. -/
theorem exit_priority_fixed_order_witness :
    exitDecision [] demoHolding "X" 12 3 = some ("target", 11)
    ∧ (dayStep 100 pdOneDay stratNone (initState 100) 0).trades = [] := by
  constructor
  · have h := (exit_priority_fixed_order.1 [] demoHolding "X" 12 3).1 (by decide)
    rw [h]
    decide
  · exact (exit_priority_fixed_order.2 100 pdOneDay stratNone (initState 100) 0 rfl).1

-- ===================================================================
-- Claim C4: equity-curve points.
-- ===================================================================

lemma dayStep_skip {initialCapital : ℚ} {pd : PriceData}
    {strategy : ℕ → List SignalRec} {st : BTState} {d : ℕ}
    (hidx : pd.index.contains d = false) :
    dayStep initialCapital pd strategy st d = st := by
  unfold dayStep
  rw [hidx]
  simp

lemma dayStep_appends_point (initialCapital : ℚ) (pd : PriceData)
    (strategy : ℕ → List SignalRec) (st : BTState) (d : ℕ)
    (hidx : pd.index.contains d = true) :
    ∃ v, (dayStep initialCapital pd strategy st d).equity = st.equity ++ [(d, v)]
      ∧ (strategy d = [] → v = some st.capital)
      ∧ (strategy d ≠ [] →
          v = (holdingValue pd d (dayStep initialCapital pd strategy st d).holdings).map
            (fun x => (dayStep initialCapital pd strategy st d).capital + x)) := by
  rcases hstrat : strategy d with _ | ⟨s, rest⟩
  · refine ⟨some st.capital, ?_, fun _ => rfl, fun hne => absurd rfl hne⟩
    unfold dayStep
    rw [hidx, hstrat]
    simp
  · refine ⟨(holdingValue pd d (dayStep initialCapital pd strategy st d).holdings).map
        (fun x => (dayStep initialCapital pd strategy st d).capital + x),
      ?_, fun hc => List.noConfusion hc, fun _ => rfl⟩
    unfold dayStep
    rw [hidx, hstrat]
    simp

lemma foldl_equity_keys (initialCapital : ℚ) (pd : PriceData)
    (strategy : ℕ → List SignalRec) :
    ∀ (days : List ℕ) (st : BTState),
      ((days.foldl (dayStep initialCapital pd strategy) st).equity).map Prod.fst
        = st.equity.map Prod.fst ++ days.filter (fun d => pd.index.contains d) := by
  intro days
  induction days with
  | nil => intro st; simp
  | cons d rest ih =>
    intro st
    simp only [List.foldl_cons, List.filter_cons]
    by_cases hidx : pd.index.contains d
    · rw [if_pos hidx, ih]
      obtain ⟨v, hv, _, _⟩ := dayStep_appends_point initialCapital pd strategy st d hidx
      rw [hv]
      simp
    · rw [if_neg hidx, dayStep_skip (Bool.not_eq_true _ ▸ eq_false_of_ne_true hidx)]
      exact ih st

/-- Counterexample to claim C4 as stated: over the two-day calendar range
0..1 where only day 0 has price data, the equity curve has a single point,
so days without data get no carried-forward point at all; moreover on a
recorded day with an empty signal set the point is the cash balance only,
omitting the live value of the open holdings. -/
theorem equity_curve_every_day_cex :
    dateRange 0 1 = [0, 1]
    ∧ (run_backtest 100 pdOneDay stratNone 0 1).equity.map Prod.fst = [0]
    ∧ (run_backtest 100 pdOneDay stratNone 0 1).equity.map Prod.fst ≠ dateRange 0 1
    ∧ (run_backtest 100 pdDaysZeroSix stratDay0Buy 0 6).equity.getLast?
        = some (6, some 90)
    ∧ mtmValue pdDaysZeroSix 6 (run_backtest 100 pdDaysZeroSix stratDay0Buy 0 6).holdings
        = 10 := by
  decide

/-- Claim C4 as amended: the equity curve has exactly one point for every
calendar day in the range that is present in the price index, in order,
and none for the other days; on a recorded day whose signal set is empty
the point is the cash balance alone, and on a recorded day with signals
the point is the day-end cash plus the live value of the day-end holdings
(None when a held price is unavailable). -/
theorem equity_curve_per_data_day :
    (∀ (initialCapital : ℚ) (pd : PriceData) (strategy : ℕ → List SignalRec)
        (dStart dEnd : ℕ),
      ((run_backtest initialCapital pd strategy dStart dEnd).equity).map Prod.fst
        = (dateRange dStart dEnd).filter (fun d => pd.index.contains d))
    ∧ (∀ (initialCapital : ℚ) (pd : PriceData) (strategy : ℕ → List SignalRec)
        (st : BTState) (d : ℕ), pd.index.contains d = true →
        ∃ v, (dayStep initialCapital pd strategy st d).equity = st.equity ++ [(d, v)]
          ∧ (strategy d = [] → v = some st.capital)
          ∧ (strategy d ≠ [] →
              v = (holdingValue pd d (dayStep initialCapital pd strategy st d).holdings).map
                (fun x => (dayStep initialCapital pd strategy st d).capital + x))) := by
  constructor
  · intro initialCapital pd strategy dStart dEnd
    have h := foldl_equity_keys initialCapital pd strategy (dateRange dStart dEnd)
      (initState initialCapital)
    simpa [run_backtest, initState] using h
  · exact dayStep_appends_point

/-- Witness for claim C4 as amended, at the one-day price table: the curve
keys are exactly the data days and the day-0 step appends one point. -/
theorem equity_curve_per_data_day_witness :
    (run_backtest 100 pdOneDay stratDay0Buy 0 1).equity.map Prod.fst = [0]
    ∧ ∃ v, (dayStep 100 pdOneDay stratDay0Buy (initState 100) 0).equity
        = (initState 100).equity ++ [(0, v)] := by
  constructor
  · have h := equity_curve_per_data_day.1 100 pdOneDay stratDay0Buy 0 1
    rw [h]
    decide
  · obtain ⟨v, hv, _, _⟩ := equity_curve_per_data_day.2 100 pdOneDay stratDay0Buy
      (initState 100) 0 (by decide)
    exact ⟨v, hv⟩

-- ===================================================================
-- Claim C1: final-capital accounting.
-- ===================================================================

lemma holdingsCost_append (l : List (String × Holding)) (x : String × Holding) :
    holdingsCost (l ++ [x]) = holdingsCost l + x.2.entryPrice * (x.2.shares : ℚ) := by
  simp [holdingsCost]

lemma holdingsCost_cons (x : String × Holding) (l : List (String × Holding)) :
    holdingsCost (x :: l) = x.2.entryPrice * (x.2.shares : ℚ) + holdingsCost l := by
  simp [holdingsCost]

lemma tradesPnl_append (l : List Trade) (t : Trade) :
    tradesPnl (l ++ [t]) = tradesPnl l + t.pnl := by
  simp [tradesPnl]

lemma tradesPnl_append_list (l m : List Trade) :
    tradesPnl (l ++ m) = tradesPnl l + tradesPnl m := by
  simp [tradesPnl]

lemma entryStep_acct (initialCapital : ℚ) (pd : PriceData) (d : ℕ)
    (acc : ℚ × List (String × Holding)) (sig : SignalRec) :
    (entryStep initialCapital pd d acc sig).1
        + holdingsCost (entryStep initialCapital pd d acc sig).2
      = acc.1 + holdingsCost acc.2 := by
  unfold entryStep
  by_cases hheld : (heldStocks acc.2).contains sig.stockId
  · rw [if_pos hheld]
  · rw [if_neg hheld]
    rcases hcp : (if pd.columns.contains sig.stockId then pcell pd d sig.stockId else none)
      with _ | p
    · rfl
    · simp only []
      by_cases hz : p = 0
      · rw [if_pos hz]
      · rw [if_neg hz]
        set sh := ratTrunc
          (min (initialCapital * MAX_POSITION_SIZE) (acc.1 * (1 / 10)) / p) with hsh
        by_cases hpos : 0 < sh
        · rw [if_pos hpos]
          rw [holdingsCost_append]
          have : ((sh.toNat : ℕ) : ℚ) = (sh : ℚ) := by
            exact_mod_cast congrArg (fun z : ℤ => (z : ℚ))
              (Int.toNat_of_nonneg (le_of_lt hpos))
          simp only [this]
          ring
        · rw [if_neg hpos]

lemma processEntries_acct (initialCapital : ℚ) (pd : PriceData) (d : ℕ) :
    ∀ (sigs : List SignalRec) (acc : ℚ × List (String × Holding)),
      (sigs.foldl (entryStep initialCapital pd d) acc).1
          + holdingsCost (sigs.foldl (entryStep initialCapital pd d) acc).2
        = acc.1 + holdingsCost acc.2 := by
  intro sigs
  induction sigs with
  | nil => intro acc; rfl
  | cons sg t ih =>
    intro acc
    simp only [List.foldl_cons]
    rw [ih (entryStep initialCapital pd d acc sg)]
    exact entryStep_acct initialCapital pd d acc sg

lemma exitStep_acct (pd : PriceData) (d : ℕ) (signals : List SignalRec)
    (acc : ℚ × List Trade × List (String × Holding)) (sh : String × Holding) :
    (exitStep pd d signals acc sh).1
        + holdingsCost (exitStep pd d signals acc sh).2.2
        - tradesPnl (exitStep pd d signals acc sh).2.1
      = acc.1 + holdingsCost acc.2.2 + sh.2.entryPrice * (sh.2.shares : ℚ)
        - tradesPnl acc.2.1 := by
  unfold exitStep
  by_cases hcol : pd.columns.contains sh.1
  · rw [if_pos hcol]
    rcases hcp : pcell pd d sh.1 with _ | p
    · simp only [holdingsCost_append]
      ring
    · simp only []
      by_cases hz : p = 0
      · rw [if_pos hz]
        simp only [holdingsCost_append]
        ring
      · rw [if_neg hz]
        rcases hdec : exitDecision signals sh.2 sh.1 p d with _ | rx
        · simp only [holdingsCost_append]
          ring
        · simp only [tradesPnl_append, mkTrade]
          ring
  · rw [if_neg hcol]
    simp only [holdingsCost_append]
    ring

lemma processExits_acct (pd : PriceData) (d : ℕ) (signals : List SignalRec) :
    ∀ (hs : List (String × Holding)) (acc : ℚ × List Trade × List (String × Holding)),
      (hs.foldl (exitStep pd d signals) acc).1
          + holdingsCost (hs.foldl (exitStep pd d signals) acc).2.2
          - tradesPnl (hs.foldl (exitStep pd d signals) acc).2.1
        = acc.1 + holdingsCost acc.2.2 + holdingsCost hs - tradesPnl acc.2.1 := by
  intro hs
  induction hs with
  | nil => intro acc; simp [holdingsCost]
  | cons sh t ih =>
    intro acc
    simp only [List.foldl_cons]
    rw [ih (exitStep pd d signals acc sh), holdingsCost_cons]
    have hstep := exitStep_acct pd d signals acc sh
    linarith

lemma holdingsCost_nil : holdingsCost [] = 0 := by
  simp [holdingsCost]

lemma tradesPnl_nil : tradesPnl [] = 0 := by
  simp [tradesPnl]

-- The running accounting invariant of the engine: cash equals initial
-- capital plus realized pnl minus the entry cost of the open holdings.
def acctInv (initialCapital : ℚ) (st : BTState) : Prop :=
  st.capital = initialCapital + tradesPnl st.trades - holdingsCost st.holdings

-- Coherence of the last equity point with the day that recorded it.
def lastPointOk (pd : PriceData) (strategy : ℕ → List SignalRec) (st : BTState) : Prop :=
  ∀ d v, st.equity.getLast? = some (d, v) →
    (strategy d = [] → v = some st.capital)
    ∧ (strategy d ≠ [] →
        v = (holdingValue pd d st.holdings).map (fun x => st.capital + x))

lemma dayStep_empty_fields (initialCapital : ℚ) (pd : PriceData)
    (strategy : ℕ → List SignalRec) (st : BTState) (d : ℕ)
    (hidx : pd.index.contains d = true) (hstrat : strategy d = []) :
    (dayStep initialCapital pd strategy st d).capital = st.capital
    ∧ (dayStep initialCapital pd strategy st d).holdings = st.holdings
    ∧ (dayStep initialCapital pd strategy st d).trades = st.trades
    ∧ (dayStep initialCapital pd strategy st d).equity
        = st.equity ++ [(d, some st.capital)] := by
  unfold dayStep
  rw [hidx, hstrat]
  exact ⟨rfl, rfl, rfl, rfl⟩

lemma dayStep_cons_fields (initialCapital : ℚ) (pd : PriceData)
    (strategy : ℕ → List SignalRec) (st : BTState) (d : ℕ) (s : SignalRec)
    (rest : List SignalRec)
    (hidx : pd.index.contains d = true) (hstrat : strategy d = s :: rest) :
    (dayStep initialCapital pd strategy st d).capital
        = (processExits pd d (s :: rest)
            (processEntries initialCapital pd d st.capital st.holdings
              ((s :: rest).filter (fun sg => sg.sigType == "BUY"))).1
            (processEntries initialCapital pd d st.capital st.holdings
              ((s :: rest).filter (fun sg => sg.sigType == "BUY"))).2).1
    ∧ (dayStep initialCapital pd strategy st d).holdings
        = (processExits pd d (s :: rest)
            (processEntries initialCapital pd d st.capital st.holdings
              ((s :: rest).filter (fun sg => sg.sigType == "BUY"))).1
            (processEntries initialCapital pd d st.capital st.holdings
              ((s :: rest).filter (fun sg => sg.sigType == "BUY"))).2).2.2
    ∧ (dayStep initialCapital pd strategy st d).trades
        = st.trades ++ (processExits pd d (s :: rest)
            (processEntries initialCapital pd d st.capital st.holdings
              ((s :: rest).filter (fun sg => sg.sigType == "BUY"))).1
            (processEntries initialCapital pd d st.capital st.holdings
              ((s :: rest).filter (fun sg => sg.sigType == "BUY"))).2).2.1
    ∧ (dayStep initialCapital pd strategy st d).equity
        = st.equity ++ [(d,
            (holdingValue pd d (processExits pd d (s :: rest)
              (processEntries initialCapital pd d st.capital st.holdings
                ((s :: rest).filter (fun sg => sg.sigType == "BUY"))).1
              (processEntries initialCapital pd d st.capital st.holdings
                ((s :: rest).filter (fun sg => sg.sigType == "BUY"))).2).2.2).map
              (fun v => (processExits pd d (s :: rest)
                (processEntries initialCapital pd d st.capital st.holdings
                  ((s :: rest).filter (fun sg => sg.sigType == "BUY"))).1
                (processEntries initialCapital pd d st.capital st.holdings
                  ((s :: rest).filter (fun sg => sg.sigType == "BUY"))).2).1 + v))] := by
  unfold dayStep
  rw [hidx, hstrat]
  exact ⟨rfl, rfl, rfl, rfl⟩

lemma dayStep_acct (initialCapital : ℚ) (pd : PriceData)
    (strategy : ℕ → List SignalRec) (st : BTState) (d : ℕ)
    (h : acctInv initialCapital st) :
    acctInv initialCapital (dayStep initialCapital pd strategy st d) := by
  by_cases hidx : pd.index.contains d
  · rcases hstrat : strategy d with _ | ⟨s, rest⟩
    · obtain ⟨hc, hh, ht, _⟩ :=
        dayStep_empty_fields initialCapital pd strategy st d hidx hstrat
      unfold acctInv at h ⊢
      rw [hc, hh, ht]
      exact h
    · obtain ⟨hc, hh, ht, _⟩ :=
        dayStep_cons_fields initialCapital pd strategy st d s rest hidx hstrat
      unfold acctInv at h ⊢
      rw [hc, hh, ht, tradesPnl_append_list]
      have hent := processEntries_acct initialCapital pd d
        ((s :: rest).filter (fun sg => sg.sigType == "BUY")) (st.capital, st.holdings)
      have hex := processExits_acct pd d (s :: rest)
        (processEntries initialCapital pd d st.capital st.holdings
          ((s :: rest).filter (fun sg => sg.sigType == "BUY"))).2
        ((processEntries initialCapital pd d st.capital st.holdings
          ((s :: rest).filter (fun sg => sg.sigType == "BUY"))).1, [], [])
      simp only [holdingsCost_nil, tradesPnl_nil] at hex
      simp only [processExits, processEntries] at *
      linarith
  · rw [dayStep_skip (eq_false_of_ne_true hidx)]
    exact h

lemma dayStep_lastPointOk (initialCapital : ℚ) (pd : PriceData)
    (strategy : ℕ → List SignalRec) (st : BTState) (d : ℕ)
    (h : lastPointOk pd strategy st) :
    lastPointOk pd strategy (dayStep initialCapital pd strategy st d) := by
  by_cases hidx : pd.index.contains d
  · rcases hstrat : strategy d with _ | ⟨s, rest⟩
    · obtain ⟨hc, hh, ht, he⟩ :=
        dayStep_empty_fields initialCapital pd strategy st d hidx hstrat
      intro d2 v2 hlast
      rw [he, List.getLast?_concat] at hlast
      injection hlast with hpair
      rw [Prod.mk.injEq] at hpair
      obtain ⟨hd, hv⟩ := hpair
      subst hd
      subst hv
      constructor
      · intro _
        rw [hc]
      · intro hne
        exact absurd hstrat hne
    · obtain ⟨hc, hh, ht, he⟩ :=
        dayStep_cons_fields initialCapital pd strategy st d s rest hidx hstrat
      intro d2 v2 hlast
      rw [he, List.getLast?_concat] at hlast
      injection hlast with hpair
      rw [Prod.mk.injEq] at hpair
      obtain ⟨hd, hv⟩ := hpair
      subst hd
      subst hv
      constructor
      · intro hcon
        rw [hstrat] at hcon
        exact List.noConfusion hcon
      · intro _
        rw [hh, hc]
  · rw [dayStep_skip (eq_false_of_ne_true hidx)]
    exact h

lemma run_backtest_inv (initialCapital : ℚ) (pd : PriceData)
    (strategy : ℕ → List SignalRec) (dStart dEnd : ℕ) :
    acctInv initialCapital (run_backtest initialCapital pd strategy dStart dEnd)
    ∧ lastPointOk pd strategy (run_backtest initialCapital pd strategy dStart dEnd) := by
  have haux : ∀ (days : List ℕ) (st : BTState),
      acctInv initialCapital st → lastPointOk pd strategy st →
      acctInv initialCapital (days.foldl (dayStep initialCapital pd strategy) st)
      ∧ lastPointOk pd strategy (days.foldl (dayStep initialCapital pd strategy) st) := by
    intro days
    induction days with
    | nil => intro st h1 h2; exact ⟨h1, h2⟩
    | cons d rest ih =>
      intro st h1 h2
      exact ih _ (dayStep_acct initialCapital pd strategy st d h1)
        (dayStep_lastPointOk initialCapital pd strategy st d h2)
  refine haux (dateRange dStart dEnd) (initState initialCapital) ?_ ?_
  · unfold acctInv initState
    simp [tradesPnl, holdingsCost]
  · intro d v hlast
    simp [initState] at hlast

lemma holdingValue_priced (pd : PriceData) (d : ℕ) :
    ∀ (hs : List (String × Holding)) (a : ℚ),
      (∀ sh ∈ hs, pd.columns.contains sh.1 = true ∧ (pcell pd d sh.1).isSome) →
      hs.foldl (hvStep pd d) (some a) = some (a + mtmValue pd d hs) := by
  intro hs
  induction hs with
  | nil => intro a _; simp [mtmValue]
  | cons sh t ih =>
    intro a hall
    obtain ⟨hcol, hcell⟩ := hall sh (by simp)
    obtain ⟨p, hp⟩ := Option.isSome_iff_exists.mp hcell
    simp only [List.foldl_cons, hvStep, hcol, if_true, hp]
    rw [ih (a + p * (sh.2.shares : ℚ)) (fun x hx => hall x (by simp [hx]))]
    simp only [mtmValue, List.map_cons, List.sum_cons, hp]
    rw [Option.some_inj]
    simp only [Option.getD_some]
    ring

lemma unrealized_eq_mtm_sub_cost (pd : PriceData) (d : ℕ)
    (hs : List (String × Holding)) :
    unrealizedPnl pd d hs = mtmValue pd d hs - holdingsCost hs := by
  induction hs with
  | nil => simp [unrealizedPnl, mtmValue, holdingsCost]
  | cons sh t ih =>
    simp only [unrealizedPnl, mtmValue, holdingsCost, List.map_cons, List.sum_cons] at *
    rw [ih]
    ring

/-- Counterexample to claim C1 as stated: one BUY entry on the only
recorded day leaves one open holding (1 share at entry price 10); the
reported final capital is 100, while initial capital plus realized pnl
plus the mark-to-market value of the open holding is 110, because the
mark-to-market value double counts the entry cost already debited from
cash. -/
theorem final_capital_mtm_cex :
    final_capital 100 (run_backtest 100 pdOneDay stratDay0Buy 0 0) = some 100
    ∧ 100 + tradesPnl (run_backtest 100 pdOneDay stratDay0Buy 0 0).trades
        + mtmValue pdOneDay 0 (run_backtest 100 pdOneDay stratDay0Buy 0 0).holdings
        = 110
    ∧ final_capital 100 (run_backtest 100 pdOneDay stratDay0Buy 0 0)
        ≠ some (100 + tradesPnl (run_backtest 100 pdOneDay stratDay0Buy 0 0).trades
            + mtmValue pdOneDay 0 (run_backtest 100 pdOneDay stratDay0Buy 0 0).holdings) := by
  decide

/-- Claim C1 as amended: when the last recorded equity point carries a
finite value, was recorded on a day with a non-empty signal set, and every
still-open holding has a column and a price on that day, the final capital
equals the initial capital plus the sum of pnl over all trades plus the
unrealized profit (mark-to-market value minus entry cost) of the open
holdings; when the last recorded day has an empty signal set the point is
the cash balance alone, which omits the open holdings entirely. -/
theorem final_capital_accounting (initialCapital : ℚ) (pd : PriceData)
    (strategy : ℕ → List SignalRec) (dStart dEnd : ℕ) (d : ℕ) (fc : ℚ)
    (hlast : (run_backtest initialCapital pd strategy dStart dEnd).equity.getLast?
        = some (d, some fc))
    (hne : strategy d ≠ [])
    (hpriced : ∀ sh ∈ (run_backtest initialCapital pd strategy dStart dEnd).holdings,
        pd.columns.contains sh.1 = true ∧ (pcell pd d sh.1).isSome) :
    fc = initialCapital
      + tradesPnl (run_backtest initialCapital pd strategy dStart dEnd).trades
      + unrealizedPnl pd d (run_backtest initialCapital pd strategy dStart dEnd).holdings := by
  obtain ⟨hacct, hlp⟩ := run_backtest_inv initialCapital pd strategy dStart dEnd
  have hv := (hlp d (some fc) hlast).2 hne
  have hhv : holdingValue pd d (run_backtest initialCapital pd strategy dStart dEnd).holdings
      = some (0 + mtmValue pd d (run_backtest initialCapital pd strategy dStart dEnd).holdings) := by
    rw [holdingValue]
    exact holdingValue_priced pd d _ 0 hpriced
  rw [hhv] at hv
  simp only [Option.map_some', Option.some_inj] at hv
  rw [unrealized_eq_mtm_sub_cost]
  unfold acctInv at hacct
  rw [hv, hacct]
  ring

/-- Witness for claim C1 as amended at the one-day BUY run: the final
capital 100 equals initial 100 plus zero realized pnl plus zero unrealized
profit of the open holding. -/
theorem final_capital_accounting_witness :
    (100 : ℚ) = 100 + tradesPnl (run_backtest 100 pdOneDay stratDay0Buy 0 0).trades
      + unrealizedPnl pdOneDay 0 (run_backtest 100 pdOneDay stratDay0Buy 0 0).holdings :=
  final_capital_accounting 100 pdOneDay stratDay0Buy 0 0 0 100 (by decide) (by decide)
    (by decide)

-- ===================================================================
-- Claim C10: the cash balance stays non-negative.
-- ===================================================================

-- Well-formedness of an open holding for the cash invariant: positive
-- entry price and an expected return of at least -100 percent.
def wfH (sh : String × Holding) : Prop :=
  0 < sh.2.entryPrice ∧ -100 ≤ sh.2.expectedReturn

lemma ratTrunc_le {x : ℚ} (h : 0 < ratTrunc x) : (ratTrunc x : ℚ) ≤ x := by
  unfold ratTrunc at h ⊢
  by_cases hx : 0 ≤ x
  · rw [if_pos hx]
    exact Int.floor_le x
  · exfalso
    rw [if_neg hx] at h
    have h2 : 0 < -x := by linarith [lt_of_not_ge hx]
    have h3 : 0 ≤ ⌊-x⌋ := Int.floor_nonneg.mpr (le_of_lt h2)
    omega

lemma entryStep_nonneg (initialCapital : ℚ) (pd : PriceData) (d : ℕ)
    (acc : ℚ × List (String × Holding)) (sig : SignalRec)
    (hinit : 0 ≤ initialCapital)
    (hpos : ∀ (d2 : ℕ) (sid : String) (p : ℚ), pcell pd d2 sid = some p → 0 < p)
    (hersig : -100 ≤ sig.expectedReturn.getD 10)
    (hcap : 0 ≤ acc.1) (hwf : ∀ sh ∈ acc.2, wfH sh) :
    0 ≤ (entryStep initialCapital pd d acc sig).1
    ∧ ∀ sh ∈ (entryStep initialCapital pd d acc sig).2, wfH sh := by
  unfold entryStep
  by_cases hheld : (heldStocks acc.2).contains sig.stockId
  · rw [if_pos hheld]
    exact ⟨hcap, hwf⟩
  · rw [if_neg hheld]
    rcases hcp : (if pd.columns.contains sig.stockId then pcell pd d sig.stockId else none)
      with _ | p
    · exact ⟨hcap, hwf⟩
    · have hp : 0 < p := by
        by_cases hcol : pd.columns.contains sig.stockId
        · rw [if_pos hcol] at hcp
          exact hpos d sig.stockId p hcp
        · rw [if_neg hcol] at hcp
          exact absurd hcp (by simp)
      simp only []
      by_cases hz : p = 0
      · rw [if_pos hz]
        exact ⟨hcap, hwf⟩
      · rw [if_neg hz]
        by_cases hsh : 0 < ratTrunc
            (min (initialCapital * MAX_POSITION_SIZE) (acc.1 * (1 / 10)) / p)
        · rw [if_pos hsh]
          constructor
          · show 0 ≤ acc.1 - (ratTrunc
              (min (initialCapital * MAX_POSITION_SIZE) (acc.1 * (1 / 10)) / p) : ℚ) * p
            have h1 := ratTrunc_le hsh
            have h2 : (ratTrunc
                (min (initialCapital * MAX_POSITION_SIZE) (acc.1 * (1 / 10)) / p) : ℚ) * p
                ≤ min (initialCapital * MAX_POSITION_SIZE) (acc.1 * (1 / 10)) / p * p :=
              mul_le_mul_of_nonneg_right h1 (le_of_lt hp)
            have h3 : min (initialCapital * MAX_POSITION_SIZE) (acc.1 * (1 / 10)) / p * p
                = min (initialCapital * MAX_POSITION_SIZE) (acc.1 * (1 / 10)) :=
              div_mul_cancel₀ _ hz
            have h4 : min (initialCapital * MAX_POSITION_SIZE) (acc.1 * (1 / 10))
                ≤ acc.1 * (1 / 10) := min_le_right _ _
            linarith
          · intro sh hmem
            rw [List.mem_append] at hmem
            rcases hmem with hmem | hmem
            · exact hwf sh hmem
            · simp only [List.mem_singleton] at hmem
              subst hmem
              exact ⟨hp, hersig⟩
        · rw [if_neg hsh]
          exact ⟨hcap, hwf⟩

lemma processEntries_nonneg (initialCapital : ℚ) (pd : PriceData) (d : ℕ)
    (hinit : 0 ≤ initialCapital)
    (hpos : ∀ (d2 : ℕ) (sid : String) (p : ℚ), pcell pd d2 sid = some p → 0 < p) :
    ∀ (sigs : List SignalRec) (acc : ℚ × List (String × Holding)),
      (∀ sig ∈ sigs, -100 ≤ sig.expectedReturn.getD 10) →
      0 ≤ acc.1 → (∀ sh ∈ acc.2, wfH sh) →
      0 ≤ (sigs.foldl (entryStep initialCapital pd d) acc).1
      ∧ ∀ sh ∈ (sigs.foldl (entryStep initialCapital pd d) acc).2, wfH sh := by
  intro sigs
  induction sigs with
  | nil => intro acc _ hcap hwf; exact ⟨hcap, hwf⟩
  | cons sg t ih =>
    intro acc hall hcap hwf
    simp only [List.foldl_cons]
    obtain ⟨h1, h2⟩ := entryStep_nonneg initialCapital pd d acc sg hinit hpos
      (hall sg (by simp)) hcap hwf
    exact ih _ (fun x hx => hall x (by simp [hx])) h1 h2

lemma exitDecision_price_nonneg (signals : List SignalRec) (h : Holding) (sid : String)
    (p : ℚ) (d : ℕ) (rx : String × ℚ)
    (hp : 0 < p) (he : 0 < h.entryPrice) (her : -100 ≤ h.expectedReturn)
    (hdec : exitDecision signals h sid p d = some rx) : 0 ≤ rx.2 := by
  unfold exitDecision at hdec
  dsimp only at hdec
  split_ifs at hdec with h1 h2 h3
  · rw [Option.some_inj] at hdec
    rw [← hdec]
    show 0 ≤ h.entryPrice * (1 + h.expectedReturn / 100)
    have : (0 : ℚ) ≤ 1 + h.expectedReturn / 100 := by linarith
    exact mul_nonneg (le_of_lt he) this
  · rw [Option.some_inj] at hdec
    rw [← hdec]
    show 0 ≤ h.entryPrice * (1 + h.stopLoss / 100)
    have hpe : 0 < p / h.entryPrice := div_pos hp he
    have heq : (p - h.entryPrice) / h.entryPrice = p / h.entryPrice - 1 := by
      field_simp
    rw [heq] at h2
    have : (0 : ℚ) ≤ 1 + h.stopLoss / 100 := by linarith
    exact mul_nonneg (le_of_lt he) this
  · rw [Option.some_inj] at hdec
    rw [← hdec]
    exact le_of_lt hp
  · rcases hfs : signals.filter (fun sg => sg.stockId == sid) with _ | ⟨sg, rest⟩
    · simp only [hfs] at hdec
      exact absurd hdec (by simp)
    · simp only [hfs] at hdec
      by_cases hty : sg.sigType == "SELL"
      · rw [if_pos hty, Option.some_inj] at hdec
        rw [← hdec]
        exact le_of_lt hp
      · rw [if_neg hty] at hdec
        exact absurd hdec (by simp)

lemma exitStep_nonneg (pd : PriceData) (d : ℕ) (signals : List SignalRec)
    (acc : ℚ × List Trade × List (String × Holding)) (sh : String × Holding)
    (hpos : ∀ (d2 : ℕ) (sid : String) (p : ℚ), pcell pd d2 sid = some p → 0 < p)
    (hcap : 0 ≤ acc.1) (hkept : ∀ x ∈ acc.2.2, wfH x) (hsh : wfH sh) :
    0 ≤ (exitStep pd d signals acc sh).1
    ∧ ∀ x ∈ (exitStep pd d signals acc sh).2.2, wfH x := by
  have hkeep : ∀ x ∈ acc.2.2 ++ [sh], wfH x := by
    intro x hx
    rw [List.mem_append] at hx
    rcases hx with hx | hx
    · exact hkept x hx
    · simp only [List.mem_singleton] at hx
      subst hx
      exact hsh
  unfold exitStep
  by_cases hcol : pd.columns.contains sh.1
  · rw [if_pos hcol]
    rcases hcp : pcell pd d sh.1 with _ | p
    · exact ⟨hcap, hkeep⟩
    · simp only []
      by_cases hz : p = 0
      · rw [if_pos hz]
        exact ⟨hcap, hkeep⟩
      · rw [if_neg hz]
        rcases hdec : exitDecision signals sh.2 sh.1 p d with _ | rx
        · exact ⟨hcap, hkeep⟩
        · constructor
          · show 0 ≤ acc.1 + (sh.2.shares : ℚ) * rx.2
            have hxp := exitDecision_price_nonneg signals sh.2 sh.1 p d rx
              (hpos d sh.1 p hcp) hsh.1 hsh.2 hdec
            have : (0 : ℚ) ≤ (sh.2.shares : ℚ) := by positivity
            nlinarith
          · exact hkept
  · rw [if_neg hcol]
    exact ⟨hcap, hkeep⟩

lemma processExits_nonneg (pd : PriceData) (d : ℕ) (signals : List SignalRec)
    (hpos : ∀ (d2 : ℕ) (sid : String) (p : ℚ), pcell pd d2 sid = some p → 0 < p) :
    ∀ (hs : List (String × Holding)) (acc : ℚ × List Trade × List (String × Holding)),
      (∀ x ∈ hs, wfH x) → 0 ≤ acc.1 → (∀ x ∈ acc.2.2, wfH x) →
      0 ≤ (hs.foldl (exitStep pd d signals) acc).1
      ∧ ∀ x ∈ (hs.foldl (exitStep pd d signals) acc).2.2, wfH x := by
  intro hs
  induction hs with
  | nil => intro acc _ hcap hwf; exact ⟨hcap, hwf⟩
  | cons sh t ih =>
    intro acc hall hcap hwf
    simp only [List.foldl_cons]
    obtain ⟨h1, h2⟩ := exitStep_nonneg pd d signals acc sh hpos hcap hwf
      (hall sh (by simp))
    exact ih _ (fun x hx => hall x (by simp [hx])) h1 h2

lemma dayStep_nonneg (initialCapital : ℚ) (pd : PriceData)
    (strategy : ℕ → List SignalRec) (st : BTState) (d : ℕ)
    (hinit : 0 ≤ initialCapital)
    (hpos : ∀ (d2 : ℕ) (sid : String) (p : ℚ), pcell pd d2 sid = some p → 0 < p)
    (her : ∀ (d2 : ℕ) (sig : SignalRec), sig ∈ strategy d2 →
      -100 ≤ sig.expectedReturn.getD 10)
    (hcap : 0 ≤ st.capital) (hwf : ∀ sh ∈ st.holdings, wfH sh) :
    0 ≤ (dayStep initialCapital pd strategy st d).capital
    ∧ ∀ sh ∈ (dayStep initialCapital pd strategy st d).holdings, wfH sh := by
  by_cases hidx : pd.index.contains d
  · rcases hstrat : strategy d with _ | ⟨s, rest⟩
    · obtain ⟨hc, hh, _, _⟩ :=
        dayStep_empty_fields initialCapital pd strategy st d hidx hstrat
      rw [hc, hh]
      exact ⟨hcap, hwf⟩
    · obtain ⟨hc, hh, _, _⟩ :=
        dayStep_cons_fields initialCapital pd strategy st d s rest hidx hstrat
      rw [hc, hh]
      have hent := processEntries_nonneg initialCapital pd d hinit hpos
        ((s :: rest).filter (fun sg => sg.sigType == "BUY")) (st.capital, st.holdings)
        (fun sig hsig => her d sig (hstrat ▸ (List.mem_filter.mp hsig).1))
        hcap hwf
      have hex := processExits_nonneg pd d (s :: rest) hpos
        (processEntries initialCapital pd d st.capital st.holdings
          ((s :: rest).filter (fun sg => sg.sigType == "BUY"))).2
        ((processEntries initialCapital pd d st.capital st.holdings
          ((s :: rest).filter (fun sg => sg.sigType == "BUY"))).1, [], [])
        (by simpa [processEntries] using hent.2)
        (by simpa [processEntries] using hent.1)
        (by intro x hx; simp at hx)
      simp only [processExits, processEntries] at *
      exact hex
  · rw [dayStep_skip (eq_false_of_ne_true hidx)]
    exact ⟨hcap, hwf⟩

lemma trace_nonneg (initialCapital : ℚ) (pd : PriceData)
    (strategy : ℕ → List SignalRec)
    (hinit : 0 ≤ initialCapital)
    (hpos : ∀ (d2 : ℕ) (sid : String) (p : ℚ), pcell pd d2 sid = some p → 0 < p)
    (her : ∀ (d2 : ℕ) (sig : SignalRec), sig ∈ strategy d2 →
      -100 ≤ sig.expectedReturn.getD 10) :
    ∀ (days : List ℕ) (st : BTState),
      0 ≤ st.capital → (∀ sh ∈ st.holdings, wfH sh) →
      (∀ s2 ∈ List.scanl (dayStep initialCapital pd strategy) st days, 0 ≤ s2.capital)
      ∧ 0 ≤ (days.foldl (dayStep initialCapital pd strategy) st).capital
      ∧ ∀ sh ∈ (days.foldl (dayStep initialCapital pd strategy) st).holdings, wfH sh := by
  intro days
  induction days with
  | nil =>
    intro st hcap hwf
    refine ⟨?_, hcap, hwf⟩
    intro s2 hs2
    simp only [List.scanl] at hs2
    rw [List.mem_singleton] at hs2
    subst hs2
    exact hcap
  | cons d rest ih =>
    intro st hcap hwf
    obtain ⟨h1, h2⟩ := dayStep_nonneg initialCapital pd strategy st d hinit hpos her
      hcap hwf
    obtain ⟨ht, hf1, hf2⟩ := ih (dayStep initialCapital pd strategy st d) h1 h2
    refine ⟨?_, hf1, hf2⟩
    intro s2 hs2
    simp only [List.scanl, List.mem_cons] at hs2
    rcases hs2 with hs2 | hs2
    · subst hs2
      exact hcap
    · exact ht s2 hs2

/-- Counterexample to claim C10 as stated: with non-negative initial
capital 100 and a price table whose only price is the positive 1, a BUY
signal carrying expected_return -10000 makes the target exit fire at the
negative theoretical price 1 * (1 - 100) = -99, so the exit debits cash
and the capital ends at -900. -/
theorem capital_nonnegative_cex :
    0 ≤ (100 : ℚ)
    ∧ (∀ c ∈ pdPenny.cells, 0 < c.2)
    ∧ (run_backtest 100 pdPenny stratDay0Bad 0 0).capital = -900
    ∧ (run_backtest 100 pdPenny stratDay0Bad 0 0).capital < 0 := by
  decide

/-- Claim C10 as amended: when the initial capital is non-negative, every
price in the table is positive, and every signal carries an expected
return of at least -100 percent (the detector only emits 15 or 10), the
cash balance is non-negative in every state of the day-by-day trace and
at the end of the run: each entry debits at most one tenth of cash and
every exit that fires settles at a non-negative price. -/
theorem capital_nonnegative (initialCapital : ℚ) (pd : PriceData)
    (strategy : ℕ → List SignalRec) (dStart dEnd : ℕ)
    (hinit : 0 ≤ initialCapital)
    (hpos : ∀ (d2 : ℕ) (sid : String) (p : ℚ), pcell pd d2 sid = some p → 0 < p)
    (her : ∀ (d2 : ℕ) (sig : SignalRec), sig ∈ strategy d2 →
      -100 ≤ sig.expectedReturn.getD 10) :
    (∀ st ∈ runTrace initialCapital pd strategy dStart dEnd, 0 ≤ st.capital)
    ∧ 0 ≤ (run_backtest initialCapital pd strategy dStart dEnd).capital := by
  obtain ⟨h1, h2, _⟩ := trace_nonneg initialCapital pd strategy hinit hpos her
    (dateRange dStart dEnd) (initState initialCapital)
    (by simpa [initState] using hinit)
    (by intro sh hsh; simp [initState] at hsh)
  exact ⟨h1, h2⟩

/-- Witness for claim C10 as amended at the one-day BUY run with price 10
and the detector defaults. -/
theorem capital_nonnegative_witness :
    (∀ st ∈ runTrace 100 pdOneDay stratDay0Buy 0 0, 0 ≤ st.capital)
    ∧ 0 ≤ (run_backtest 100 pdOneDay stratDay0Buy 0 0).capital := by
  apply capital_nonnegative 100 pdOneDay stratDay0Buy 0 0 (by decide)
  · intro d2 sid p hp
    by_cases hb : ((0 : ℕ) == d2 && ("X" == sid))
    · simp only [pcell, pdOneDay, List.find?, hb, Option.map_some'] at hp
      rw [Option.some_inj] at hp
      rw [← hp]
      decide
    · simp only [pcell, pdOneDay, List.find?, hb, Option.map_none'] at hp
      exact absurd hp (by simp)
  · intro d2 sig hsig
    unfold stratDay0Buy at hsig
    by_cases hd : d2 = 0
    · rw [if_pos hd] at hsig
      rw [List.mem_singleton] at hsig
      subst hsig
      decide
    · rw [if_neg hd] at hsig
      exact absurd hsig (by simp)
